import Mathlib

/-!
Verification development for the `esther` smart-thermostat repository.

Python floats are modelled as real numbers (`ℝ`), `math.exp` as `Real.exp`,
and numpy arrays / Python lists as `List ℝ`.  Wall-clock instants (from
`time.monotonic()`) are modelled as rationals (`ℚ`) and the `float("inf")`
sentinel used for a never-seen sensor source as `Option`/`⊥`.
-/

namespace Esther

/-- `HeatedHouseWithSingleHeatingSource._analytical_solution`
(src/app/dynamic_model.py, lines 12-24): one analytic step of the
two-coupling linear thermal model.
`K = k1 + k2`, `T_w = (k2*T_feed + k1*T_outdoor) / K`,
result `= T_w + (T_indoor_0 - T_w) * exp(-K*t)`. -/
noncomputable def analytical_solution (k1 k2 T_indoor_0 T_feed T_outdoor t : ℝ) : ℝ :=
  let K := k1 + k2
  let T_w := (k2 * T_feed + k1 * T_outdoor) / K
  let delta := T_indoor_0 - T_w
  T_w + delta * Real.exp (-K * t)

/-- Loop body of `HeatedHouseWithSingleHeatingSource.simulate`
(src/app/dynamic_model.py, lines 26-40): iterate the analytic step across
`zip(T_feed, T_outdoor)`, each step's output feeding the next step's start,
collecting every intermediate indoor temperature. -/
noncomputable def simulateAux (k1 k2 dt : ℝ) : ℝ → List (ℝ × ℝ) → List ℝ
  | _, [] => []
  | Ti, (Tf, To) :: rest =>
    let Ti2 := analytical_solution k1 k2 Ti Tf To dt
    Ti2 :: simulateAux k1 k2 dt Ti2 rest

/-- `HeatedHouseWithSingleHeatingSource.simulate`
(src/app/dynamic_model.py, lines 26-40).  Python's `zip` truncates to the
shorter of the two sequences, which `List.zip` mirrors exactly. -/
noncomputable def simulate (k1 k2 T_indoor_now : ℝ) (T_feed T_outdoor : List ℝ)
    (delta_t : ℝ) : List ℝ :=
  simulateAux k1 k2 delta_t T_indoor_now (T_feed.zip T_outdoor)

theorem simulateAux_length (k1 k2 dt Ti : ℝ) (ps : List (ℝ × ℝ)) :
    (simulateAux k1 k2 dt Ti ps).length = ps.length := by
  induction ps generalizing Ti with
  | nil => rfl
  | cons p rest ih =>
    obtain ⟨Tf, To⟩ := p
    simp [simulateAux, ih]

theorem simulate_length (k1 k2 T0 : ℝ) (fs os : List ℝ) (dt : ℝ) :
    (simulate k1 k2 T0 fs os dt).length = min fs.length os.length := by
  unfold simulate
  rw [simulateAux_length, List.length_zip]

theorem simulateAux_getD (k1 k2 dt : ℝ) (ps : List (ℝ × ℝ)) (Ti : ℝ) (i : ℕ)
    (hi : i < ps.length) :
    (simulateAux k1 k2 dt Ti ps).getD i 0 =
      analytical_solution k1 k2
        (if i = 0 then Ti else (simulateAux k1 k2 dt Ti ps).getD (i - 1) 0)
        (ps.getD i (0, 0)).1 (ps.getD i (0, 0)).2 dt := by
  induction ps generalizing Ti i with
  | nil => simp at hi
  | cons p rest ih =>
    obtain ⟨Tf, To⟩ := p
    match i with
    | 0 => simp [simulateAux]
    | j + 1 =>
      have hj : j < rest.length := by simpa using hi
      have h2 := ih (analytical_solution k1 k2 Ti Tf To dt) j hj
      simp only [simulateAux, List.getD_cons_succ]
      rw [h2]
      match j with
      | 0 => simp [simulateAux]
      | m + 1 => simp

theorem zip_getD (fs os : List ℝ) (i : ℕ) (h1 : i < fs.length) (h2 : i < os.length) :
    (fs.zip os).getD i (0, 0) = (fs.getD i 0, os.getD i 0) := by
  have hz : i < (fs.zip os).length := by simp [List.length_zip]; omega
  rw [List.getD_eq_getElem _ _ hz, List.getD_eq_getElem _ _ h1, List.getD_eq_getElem _ _ h2]
  simp [List.getElem_zip]

/-- C1: for a model with `k1 + k2 > 0`, any start temperature, step length and
equal-length feed/outdoor sequences of length `N`, `simulate` returns a
trajectory of length `N` whose element `i` is the analytic step applied to the
previous trajectory element (to `T_indoor_now` for `i = 0`) together with the
`i`-th feed and outdoor temperatures. -/
theorem simulate_trajectory_recurrence (k1 k2 : ℝ) (hK : 0 < k1 + k2)
    (T0 t : ℝ) (fs os : List ℝ) (N : ℕ) (hf : fs.length = N) (ho : os.length = N) :
    (simulate k1 k2 T0 fs os t).length = N ∧
      ∀ i < N, (simulate k1 k2 T0 fs os t).getD i 0 =
        analytical_solution k1 k2
          (if i = 0 then T0 else (simulate k1 k2 T0 fs os t).getD (i - 1) 0)
          (fs.getD i 0) (os.getD i 0) t := by
  constructor
  · rw [simulate_length, hf, ho, min_self]
  · intro i hi
    have hz : i < (fs.zip os).length := by
      simp [List.length_zip]; omega
    have := simulateAux_getD k1 k2 t (fs.zip os) T0 i hz
    rw [zip_getD fs os i (by omega) (by omega)] at this
    exact this

/-- Witness for C1 at `k1 = k2 = 1`, `T0 = 5`, `t = 1`, horizon `[7]`/`[3]`. -/
theorem simulate_trajectory_recurrence_witness :
    (simulate 1 1 5 [7] [3] 1).length = 1 ∧
      ∀ i < 1, (simulate 1 1 5 [7] [3] 1).getD i 0 =
        analytical_solution 1 1
          (if i = 0 then 5 else (simulate 1 1 5 [7] [3] 1).getD (i - 1) 0)
          (([7] : List ℝ).getD i 0) (([3] : List ℝ).getD i 0) 1 :=
  simulate_trajectory_recurrence 1 1 (by norm_num) 5 1 [7] [3] 1 rfl rfl

/-- C6: with all drivers and the start temperature equal to `T`, every element
of the simulated trajectory equals `T` exactly. -/
theorem simulate_steady_state (k1 k2 : ℝ) (h1 : 0 ≤ k1) (h2 : 0 ≤ k2)
    (hK : 0 < k1 + k2) (T dt : ℝ) (hdt : 0 < dt) (N : ℕ) (hN : 1 ≤ N) :
    simulate k1 k2 T (List.replicate N T) (List.replicate N T) dt =
      List.replicate N T := by
  have hKne : k1 + k2 ≠ 0 := ne_of_gt hK
  have hstep : analytical_solution k1 k2 T T T dt = T := by
    show (k2 * T + k1 * T) / (k1 + k2) +
        (T - (k2 * T + k1 * T) / (k1 + k2)) * Real.exp (-(k1 + k2) * dt) = T
    have hw : (k2 * T + k1 * T) / (k1 + k2) = T := by
      field_simp
      ring
    rw [hw]
    ring
  have hrep : ∀ n : ℕ,
      simulateAux k1 k2 dt T (List.replicate n (T, T)) = List.replicate n T := by
    intro n
    induction n with
    | zero => rfl
    | succ m ih =>
      simp only [List.replicate_succ, simulateAux, hstep, ih]
  unfold simulate
  rw [List.zip_replicate, min_self, hrep]

/-- Witness for C6 at `k1 = k2 = 1`, `T = 20`, `dt = 1`, `N = 1`. -/
theorem simulate_steady_state_witness :
    simulate 1 1 20 (List.replicate 1 20) (List.replicate 1 20) 1 =
      List.replicate 1 20 :=
  simulate_steady_state 1 1 (by norm_num) (by norm_num) (by norm_num) 20 1
    (by norm_num) 1 (by norm_num)

/-- C7 as stated is false: at `k1 = 1`, `k2 = 0`, `T_indoor_0 = 1`,
`T_feed = 2`, `T_outdoor = 0`, `t = 1` all of the claim's hypotheses hold
(`k1, k2 ≥ 0`, `k1 + k2 > 0`, `t > 0`, `T_feed > T0 ≥ T_outdoor`), yet the
analytic step returns `exp (-1) < 1 = T_indoor_0`. -/
theorem heatup_claim_counterexample :
    (0 : ℝ) ≤ 1 ∧ (0 : ℝ) ≤ 0 ∧ (0 : ℝ) < 1 + 0 ∧ (0 : ℝ) < 1 ∧
      (2 : ℝ) > 1 ∧ (1 : ℝ) ≥ 0 ∧
      ¬ analytical_solution 1 0 1 2 0 1 > 1 := by
  refine ⟨by norm_num, le_refl 0, by norm_num, by norm_num, by norm_num,
    by norm_num, ?_⟩
  have hval : analytical_solution 1 0 1 2 0 1 = Real.exp (-1) := by
    unfold analytical_solution
    norm_num
  rw [hval]
  push_neg
  exact le_of_lt (Real.exp_lt_one_iff.mpr (by norm_num))

/-- C7 amended: the analytic step strictly increases the indoor temperature
when additionally the feed coupling dominates the outdoor pull,
`k1*(T0 - T_outdoor) < k2*(T_feed - T0)` (equivalently the weighted driver
temperature exceeds `T0`); with `k2 = 0` or a dominating cold outdoor drive
the step can decrease even though `T_feed > T0 ≥ T_outdoor`. -/
theorem heatup_strict (k1 k2 T0 Tf To t : ℝ) (h1 : 0 ≤ k1) (h2 : 0 ≤ k2)
    (hK : 0 < k1 + k2) (ht : 0 < t) (hfeed : T0 < Tf) (hout : To ≤ T0)
    (hdrive : k1 * (T0 - To) < k2 * (Tf - T0)) :
    T0 < analytical_solution k1 k2 T0 Tf To t := by
  unfold analytical_solution
  set K := k1 + k2 with hKdef
  set Tw := (k2 * Tf + k1 * To) / K with hTw
  have hTwpos : 0 < Tw - T0 := by
    have hnum : 0 < k2 * Tf + k1 * To - K * T0 := by
      have : k2 * Tf + k1 * To - K * T0 = k2 * (Tf - T0) - k1 * (T0 - To) := by
        rw [hKdef]; ring
      rw [this]
      linarith
    have := div_pos hnum hK
    calc (0 : ℝ) < (k2 * Tf + k1 * To - K * T0) / K := this
      _ = Tw - T0 := by rw [hTw]; field_simp
  have hexp : Real.exp (-K * t) < 1 := by
    apply Real.exp_lt_one_iff.mpr
    have : 0 < K * t := mul_pos hK ht
    linarith
  have hexppos : 0 < Real.exp (-K * t) := Real.exp_pos _
  nlinarith [mul_pos hTwpos (sub_pos.mpr hexp)]

/-- Witness for the amended C7 at `k1 = 0`, `k2 = 1`, `T0 = 0`, `T_feed = 1`,
`T_outdoor = 0`, `t = 1`. -/
theorem heatup_strict_witness : (0 : ℝ) < analytical_solution 0 1 0 1 0 1 :=
  heatup_strict 0 1 0 1 0 1 (le_refl 0) (by norm_num) (by norm_num)
    (by norm_num) (by norm_num) (le_refl 0) (by norm_num)

/-- C10: with feed/outdoor sequences of unequal length, `simulate` raises no
error and returns a trajectory of length `min` of the two lengths — Python's
`zip` silently drops the trailing entries of the longer sequence. -/
theorem simulate_unequal_lengths (k1 k2 T0 t : ℝ) (fs os : List ℝ)
    (h : fs.length ≠ os.length) :
    (simulate k1 k2 T0 fs os t).length = min fs.length os.length :=
  simulate_length k1 k2 T0 fs os t

/-- Witness for C10 with sequences of lengths 1 and 0. -/
theorem simulate_unequal_lengths_witness :
    (simulate 1 1 0 [1] [] 1).length = min ([1] : List ℝ).length ([] : List ℝ).length :=
  simulate_unequal_lengths 1 1 0 1 [1] [] (by decide)

/-! ### Sensor-fusion combinator (`combine_latest_with_timeout`,
src/app/streamz_nodes.py, lines 9-34)

An update event is `(source index, payload value, arrival time)`; the arrival
time is the value of `time.monotonic()` taken at the head of `update`. -/

/-- State of one `combine_latest_with_timeout` instance with `n` upstreams:
`missing` is the parent class's set of upstreams that have never produced,
`lastSeen j = none` models the `float("inf")` initialisation of
`self._last_seen`, and `last j = none` the `None` initialisation of
`self.last`. -/
structure FusionState (n : ℕ) (α : Type) where
  missing : Finset (Fin n)
  lastSeen : Fin n → Option ℚ
  last : Fin n → Option α

/-- Initial combinator state: every upstream missing, nothing seen. -/
def initFusionState (n : ℕ) (α : Type) : FusionState n α :=
  ⟨Finset.univ, fun _ => none, fun _ => none⟩

/-- `combine_latest_with_timeout.update` for an update from upstream `i`
carrying `x` at time `now`: record `last_seen[i] = now`, compute
`diffs = [now - last_seen[j] for all j]` (`now - inf = -inf` is modelled as
`⊥` in `WithBot ℚ`), drop `i` from `missing`, record `last[i] = x`, then emit
the tuple of `last` values iff `missing` is empty and `max(diffs) < timeout`.
The constructor is used with the default `emit_on` (all upstreams), so the
code's `who in self.emit_on` test is always true. -/
def fusionUpdate {n : ℕ} {α : Type} (timeout : ℚ) (s : FusionState n α)
    (i : Fin n) (x : α) (now : ℚ) : FusionState n α × Option (Fin n → Option α) :=
  let lastSeen := Function.update s.lastSeen i (some now)
  let diffs : Fin n → WithBot ℚ := fun j =>
    match lastSeen j with
    | some tl => ((now - tl : ℚ) : WithBot ℚ)
    | none => ⊥
  let missing := s.missing.erase i
  let last := Function.update s.last i (some x)
  if missing = ∅ ∧ Finset.univ.sup diffs < (timeout : WithBot ℚ) then
    (⟨missing, lastSeen, last⟩, some last)
  else
    (⟨missing, lastSeen, last⟩, none)

/-- Run the combinator over a list of update events (earliest first),
starting from state `s`. -/
def fusionRunFrom {n : ℕ} {α : Type} (timeout : ℚ) (s : FusionState n α) :
    List (Fin n × α × ℚ) → FusionState n α
  | [] => s
  | e :: es => fusionRunFrom timeout (fusionUpdate timeout s e.1 e.2.1 e.2.2).1 es

/-- Run the combinator over a list of update events from the initial state. -/
def fusionRun {n : ℕ} {α : Type} (timeout : ℚ) (es : List (Fin n × α × ℚ)) :
    FusionState n α :=
  fusionRunFrom timeout (initFusionState n α) es

/-- Specification-side view of an event list: the payload/time of source `j`'s
most recent delivery, if any (later events in the list win). -/
def lastEvt {n : ℕ} {α : Type} : List (Fin n × α × ℚ) → Fin n → Option (α × ℚ)
  | [], _ => none
  | e :: es, j => if e.1 = j then (lastEvt es j).or (some e.2) else lastEvt es j

/-- Specification-side: every source has delivered at least one sample. -/
def allSeen {n : ℕ} {α : Type} (es : List (Fin n × α × ℚ)) : Bool :=
  (List.finRange n).all (fun j => (lastEvt es j).isSome)

/-- Specification-side: every source's most recent delivery is strictly
younger than `timeout` as of `now`. -/
def allFresh {n : ℕ} {α : Type} (es : List (Fin n × α × ℚ)) (now timeout : ℚ) : Bool :=
  (List.finRange n).all (fun j =>
    match lastEvt es j with
    | some p => decide (now - p.2 < timeout)
    | none => true)

theorem fusionUpdate_fst {n : ℕ} {α : Type} (timeout : ℚ) (s : FusionState n α)
    (i : Fin n) (x : α) (now : ℚ) :
    (fusionUpdate timeout s i x now).1 =
      ⟨s.missing.erase i, Function.update s.lastSeen i (some now),
        Function.update s.last i (some x)⟩ := by
  simp only [fusionUpdate]
  split <;> rfl

theorem lastEvt_append_singleton {n : ℕ} {α : Type} (es : List (Fin n × α × ℚ))
    (i : Fin n) (x : α) (now : ℚ) (j : Fin n) :
    lastEvt (es ++ [(i, x, now)]) j =
      if i = j then some (x, now) else lastEvt es j := by
  induction es with
  | nil => by_cases h : i = j <;> simp [lastEvt, h, Option.or]
  | cons e es ih =>
    have hcons : lastEvt ((e :: es) ++ [(i, x, now)]) j =
        if e.1 = j then (lastEvt (es ++ [(i, x, now)]) j).or (some e.2)
        else lastEvt (es ++ [(i, x, now)]) j := rfl
    rw [hcons, ih]
    by_cases he : e.1 = j <;> by_cases hi : i = j <;>
      cases hl : lastEvt es j <;> simp [he, hi, hl, lastEvt, Option.or]

theorem fusionRunFrom_missing {n : ℕ} {α : Type} (timeout : ℚ)
    (es : List (Fin n × α × ℚ)) (s : FusionState n α) :
    (fusionRunFrom timeout s es).missing =
      s.missing.filter (fun j => (lastEvt es j).isNone) := by
  induction es generalizing s with
  | nil =>
    simp [fusionRunFrom, lastEvt]
  | cons e es ih =>
    rw [fusionRunFrom, ih, fusionUpdate_fst]
    ext j
    by_cases he : e.1 = j
    · subst he
      cases hl : lastEvt es e.1 <;>
        simp [lastEvt, hl, Finset.mem_filter, Finset.mem_erase, Option.or]
    · have hne : j ≠ e.1 := fun h => he h.symm
      simp [lastEvt, he, Finset.mem_filter, Finset.mem_erase, hne]

theorem fusionRunFrom_lastSeen {n : ℕ} {α : Type} (timeout : ℚ)
    (es : List (Fin n × α × ℚ)) (s : FusionState n α) (j : Fin n) :
    (fusionRunFrom timeout s es).lastSeen j =
      ((lastEvt es j).map Prod.snd).or (s.lastSeen j) := by
  induction es generalizing s with
  | nil => simp [fusionRunFrom, lastEvt, Option.or]
  | cons e es ih =>
    rw [fusionRunFrom, ih, fusionUpdate_fst]
    by_cases he : e.1 = j
    · subst he
      cases hl : lastEvt es e.1 <;>
        simp [lastEvt, hl, Function.update_same, Option.or]
    · have hne : j ≠ e.1 := fun h => he h.symm
      simp [lastEvt, he, Function.update_noteq hne]

theorem fusionRunFrom_last {n : ℕ} {α : Type} (timeout : ℚ)
    (es : List (Fin n × α × ℚ)) (s : FusionState n α) (j : Fin n) :
    (fusionRunFrom timeout s es).last j =
      ((lastEvt es j).map Prod.fst).or (s.last j) := by
  induction es generalizing s with
  | nil => simp [fusionRunFrom, lastEvt, Option.or]
  | cons e es ih =>
    rw [fusionRunFrom, ih, fusionUpdate_fst]
    by_cases he : e.1 = j
    · subst he
      cases hl : lastEvt es e.1 <;>
        simp [lastEvt, hl, Function.update_same, Option.or]
    · have hne : j ≠ e.1 := fun h => he h.symm
      simp [lastEvt, he, Function.update_noteq hne]

theorem fusionUpdate_eq {n : ℕ} {α : Type} (timeout : ℚ) (s : FusionState n α)
    (i : Fin n) (x : α) (now : ℚ) :
    fusionUpdate timeout s i x now =
      (⟨s.missing.erase i, Function.update s.lastSeen i (some now),
          Function.update s.last i (some x)⟩,
        if s.missing.erase i = ∅ ∧
            Finset.univ.sup (fun j =>
              match Function.update s.lastSeen i (some now) j with
              | some tl => ((now - tl : ℚ) : WithBot ℚ)
              | none => ⊥) < (timeout : WithBot ℚ) then
          some (Function.update s.last i (some x))
        else none) := by
  simp only [fusionUpdate]
  split <;> simp_all

/-- C2: after the combinator has processed any event history `es`, an update
from source `i` carrying `x` at time `now` (i) records `last[i] = x` and
`last_seen[i] = now`, (ii) leaves `last` holding every source's most recent
delivered value, and (iii) emits the tuple of those most recent values iff
every source has delivered at least once in `es ++ [(i,x,now)]` and every
source's most recent delivery is strictly younger than `timeout`; otherwise it
emits nothing (while the recorded state is still updated). -/
theorem combine_latest_with_timeout_update (n : ℕ) (α : Type) (timeout : ℚ)
    (es : List (Fin n × α × ℚ)) (i : Fin n) (x : α) (now : ℚ) :
    (fusionUpdate timeout (fusionRun timeout es) i x now).1.last i = some x ∧
      (fusionUpdate timeout (fusionRun timeout es) i x now).1.lastSeen i = some now ∧
      (∀ j, (fusionUpdate timeout (fusionRun timeout es) i x now).1.last j =
        (lastEvt (es ++ [(i, x, now)]) j).map Prod.fst) ∧
      (fusionUpdate timeout (fusionRun timeout es) i x now).2 =
        (if allSeen (es ++ [(i, x, now)]) = true ∧
            allFresh (es ++ [(i, x, now)]) now timeout = true then
          some (fun j => (lastEvt (es ++ [(i, x, now)]) j).map Prod.fst)
        else none) := by
  classical
  set s := fusionRun timeout es with hs
  set es2 := es ++ [(i, x, now)] with hes2
  have hlast0 : ∀ j, s.last j = (lastEvt es j).map Prod.fst := by
    intro j
    rw [hs, fusionRun, fusionRunFrom_last]
    cases (lastEvt es j).map Prod.fst <;> simp [initFusionState, Option.or]
  have hseen0 : ∀ j, s.lastSeen j = (lastEvt es j).map Prod.snd := by
    intro j
    rw [hs, fusionRun, fusionRunFrom_lastSeen]
    cases (lastEvt es j).map Prod.snd <;> simp [initFusionState, Option.or]
  have hmiss0 : s.missing = Finset.univ.filter (fun j => (lastEvt es j).isNone) := by
    rw [hs, fusionRun, fusionRunFrom_missing]
    simp [initFusionState]
  have hlast2 : ∀ j, Function.update s.last i (some x) j =
      (lastEvt es2 j).map Prod.fst := by
    intro j
    rw [hes2, lastEvt_append_singleton]
    by_cases hj : j = i
    · subst hj
      simp [Function.update_same]
    · have : ¬ i = j := fun h => hj h.symm
      simp [Function.update_noteq hj, this, hlast0]
  have hseen2 : ∀ j, Function.update s.lastSeen i (some now) j =
      (lastEvt es2 j).map Prod.snd := by
    intro j
    rw [hes2, lastEvt_append_singleton]
    by_cases hj : j = i
    · subst hj
      simp [Function.update_same]
    · have : ¬ i = j := fun h => hj h.symm
      simp [Function.update_noteq hj, this, hseen0]
  have hmiss2 : s.missing.erase i =
      Finset.univ.filter (fun j => (lastEvt es2 j).isNone) := by
    rw [hmiss0]
    ext j
    by_cases hj : j = i
    · subst hj
      simp [hes2, lastEvt_append_singleton]
    · have hij : ¬ i = j := fun h => hj h.symm
      simp [Finset.mem_erase, hj, hes2, lastEvt_append_singleton, hij]
  have hseenIff : s.missing.erase i = ∅ ↔ allSeen es2 = true := by
    rw [hmiss2]
    rw [Finset.filter_eq_empty_iff]
    simp [allSeen, List.all_eq_true, List.mem_finRange, Option.isNone_iff_eq_none,
      Option.isSome_iff_ne_none]
  have hfreshIff :
      Finset.univ.sup (fun j =>
          match Function.update s.lastSeen i (some now) j with
          | some tl => ((now - tl : ℚ) : WithBot ℚ)
          | none => ⊥) < (timeout : WithBot ℚ) ↔
        allFresh es2 now timeout = true := by
    rw [Finset.sup_lt_iff (WithBot.bot_lt_coe timeout)]
    simp only [allFresh, List.all_eq_true, List.mem_finRange, forall_true_left,
      Finset.mem_univ, true_implies]
    constructor
    · intro h j
      have := h j
      rw [hseen2 j] at this
      cases hl : lastEvt es2 j with
      | none => rfl
      | some p =>
        rw [hl] at this
        simpa [WithBot.coe_lt_coe] using this
    · intro h j
      rw [hseen2 j]
      cases hl : lastEvt es2 j with
      | none => simpa using WithBot.bot_lt_coe timeout
      | some p =>
        have := h j
        rw [hl] at this
        simp only [decide_eq_true_eq] at this
        simpa [WithBot.coe_lt_coe] using this
  rw [fusionUpdate_eq]
  refine ⟨by simp [Function.update_same], by simp [Function.update_same], hlast2, ?_⟩
  by_cases hC : allSeen es2 = true ∧ allFresh es2 now timeout = true
  · rw [if_pos (by rw [hseenIff, hfreshIff]; exact hC), if_pos hC]
    exact congrArg some (funext hlast2)
  · rw [if_neg (by rw [hseenIff, hfreshIff]; exact hC), if_neg hC]

/-! ### Fault-isolation sink (`on_exception`, src/app/streamz_nodes.py,
lines 37-55)

The wrapped stage's processing of one item is modelled as
`f : α → Except ε β`: `Except.error e` is a raised exception matching the
configured exception class, `Except.ok y` a normal result.  The wrapper's
`try`/`except` sends `(x, exc)` down the error branch and otherwise lets the
normal result continue on the main branch; each item is processed on arrival,
independently of earlier items. -/

/-- Feed a sequence of items through an `on_exception`-wrapped stage,
collecting the main branch's outputs and the error branch's
`(offending input, exception)` pairs. -/
def onExceptionRun {α β ε : Type} (f : α → Except ε β) :
    List α → List β × List (α × ε)
  | [] => ([], [])
  | x :: xs =>
    let rest := onExceptionRun f xs
    match f x with
    | Except.ok y => (y :: rest.1, rest.2)
    | Except.error e => (rest.1, (x, e) :: rest.2)

/-- C8: for an `on_exception`-wrapped stage, (i) processing is independent
across items — the branch outputs of a concatenated input sequence are the
concatenations of the branch outputs of its parts, so an isolated failure
never affects later items; (ii) an item whose processing raises the
configured exception contributes exactly the pair `(input, exception)` on the
error branch and nothing on the main branch; (iii) an item whose processing
succeeds contributes exactly its result on the main branch and nothing on the
error branch. -/
theorem on_exception_isolates (α β ε : Type) (f : α → Except ε β)
    (xs ys : List α) :
    (onExceptionRun f (xs ++ ys) =
        ((onExceptionRun f xs).1 ++ (onExceptionRun f ys).1,
          (onExceptionRun f xs).2 ++ (onExceptionRun f ys).2)) ∧
      (∀ x e, f x = Except.error e → onExceptionRun f [x] = ([], [(x, e)])) ∧
      (∀ x y, f x = Except.ok y → onExceptionRun f [x] = ([y], [])) := by
  refine ⟨?_, ?_, ?_⟩
  · induction xs with
    | nil => simp [onExceptionRun]
    | cons x xs ih =>
      simp only [List.cons_append, onExceptionRun, ih]
      cases f x <;> simp [ih]
  · intro x e he
    simp [onExceptionRun, he]
  · intro x y hy
    simp [onExceptionRun, hy]

/-- Witness for C8 with the stage `fun m => if m = 0 then error 7 else ok m`
on inputs `[0]` and `[1]`. -/
theorem on_exception_isolates_witness :
    (onExceptionRun (fun m : ℕ => if m = 0 then Except.error 7 else Except.ok m)
          ([0] ++ [1]) =
        ((onExceptionRun (fun m : ℕ => if m = 0 then Except.error 7 else Except.ok m)
            [0]).1 ++
          (onExceptionRun (fun m : ℕ => if m = 0 then Except.error 7 else Except.ok m)
            [1]).1,
          (onExceptionRun (fun m : ℕ => if m = 0 then Except.error 7 else Except.ok m)
            [0]).2 ++
          (onExceptionRun (fun m : ℕ => if m = 0 then Except.error 7 else Except.ok m)
            [1]).2)) ∧
      onExceptionRun (fun m : ℕ => if m = 0 then Except.error 7 else Except.ok m)
          [0] = ([], [(0, 7)]) ∧
      onExceptionRun (fun m : ℕ => if m = 0 then Except.error 7 else Except.ok m)
          [1] = ([1], []) := by
  have h := on_exception_isolates ℕ ℕ ℕ
    (fun m : ℕ => if m = 0 then Except.error 7 else Except.ok m) [0] [1]
  exact ⟨h.1, h.2.1 0 7 rfl, h.2.2 1 1 rfl⟩

/-! ### Per-cycle solver output policy (`run.run_optimization`,
src/app/main.py, lines 110-116) -/

/-- The solver's result as consumed by `run_optimization`: decision vector,
success flag and diagnostic message. -/
structure OptimizeResult where
  x : List ℝ
  success : Bool
  message : String

/-- Tail of `run.run_optimization` (src/app/main.py, lines 110-116): on an
unsuccessful solve, return nothing unless `--allow-failing-solutions` was
given; otherwise (and on success) return the first element of the decision
vector as the new target feed temperature.  The solver's vector is nonempty
(its length is the horizon length `N ≥ 1`), so `res.x[0]` is modelled by
`List.headI`. -/
def run_optimization_output (allow_failing_solutions : Bool)
    (res : OptimizeResult) : Option ℝ :=
  if res.success = false ∧ allow_failing_solutions = false then none
  else some res.x.headI

/-- C9: the optimization cycle emits the head of the decision vector when the
solver reports success; on failure it emits nothing unless the
allow-failing-solutions flag is set, in which case it emits the head of the
(possibly infeasible) vector anyway. -/
theorem run_optimization_output_policy (allow : Bool) (res : OptimizeResult) :
    (res.success = true → run_optimization_output allow res = some res.x.headI) ∧
      (res.success = false → allow = false →
        run_optimization_output allow res = none) ∧
      (res.success = false → allow = true →
        run_optimization_output allow res = some res.x.headI) := by
  refine ⟨?_, ?_, ?_⟩ <;> intro hs <;>
    simp [run_optimization_output, hs]

/-- Witness for C9 across all three cases, at concrete solver results with
decision vector `[42]`. -/
theorem run_optimization_output_policy_witness :
    run_optimization_output false ⟨[42], true, ""⟩ =
        some (([42] : List ℝ).headI) ∧
      run_optimization_output false ⟨[42], false, ""⟩ = none ∧
      run_optimization_output true ⟨[42], false, ""⟩ =
        some (([42] : List ℝ).headI) :=
  ⟨(run_optimization_output_policy false ⟨[42], true, ""⟩).1 rfl,
    (run_optimization_output_policy false ⟨[42], false, ""⟩).2.1 rfl rfl,
    (run_optimization_output_policy true ⟨[42], false, ""⟩).2.2 rfl rfl⟩

/-! ### Optimization-problem construction (`prepare_optimization_problem`,
src/app/opt.py, lines 22-103)

`app.opt` imports `ModelParameters` and a function-form
`simulate(model, T0, T_feed, T_outdoor, delta_t)` from `app.dynamic_model`,
whose function form is not part of src/ (src/app/dynamic_model.py carries the
class form with a scalar step); these two are modelled from the spec below.
numpy elementwise arithmetic on equal-length arrays is modelled with
`List.zipWith`/`List.map`. -/

/-- Modelled from the spec: `ModelParameters` (spec §3, "two positive rate
constants … optionally a feed-temperature-dependent efficiency function
(COP) used only as a cost weight"); the function-form `dynamic_model` module
that defines it is missing from src/.  `k1` couples to outdoor, `k2` to feed,
matching the class form in src/app/dynamic_model.py. -/
structure ModelParameters where
  k1 : ℝ
  k2 : ℝ
  COP_feed : Option (ℝ → ℝ) := none

/-- Modelled from the spec: the function-form `dynamic_model.simulate` used
by `app.opt` (missing from src/), per spec §4.1: advance the analytic step
across the horizon, each step's output feeding the next step's start, with
the per-slot step length `delta_t[i]`. -/
noncomputable def simulateModel (model : ModelParameters) :
    ℝ → List ℝ → List ℝ → List ℝ → List ℝ
  | Ti, Tf :: fs, To :: os, dt :: ds =>
    let Ti2 := analytical_solution model.k1 model.k2 Ti Tf To dt
    Ti2 :: simulateModel model Ti2 fs os ds
  | _, _, _, _ => []

/-- `np.ndarray.max` of a nonempty array (`delta_t.max()` in the objective). -/
def npMax : List ℝ → ℝ
  | [] => 0
  | x :: xs => xs.foldl max x

/-- `ProblemDefinition` (src/app/opt.py, lines 13-19). -/
structure ProblemDefinition where
  size : ℕ
  objective : List ℝ → ℝ
  inequality_constraints : List ℝ → List ℝ
  equality_constraints : List ℝ → List ℝ
  bounds : List (ℝ × ℝ)

/-- `prepare_optimization_problem` (src/app/opt.py, lines 22-103).  The
`RuntimeError` raised on a length mismatch between `electricity_prices` and
`outdoor_temperatures` is modelled as `Except.error`; note the code checks
only those two lengths — `delta_t` is not checked.  The effective indoor band
is widened to include the current indoor temperature before being captured by
the constraint closures and the decision bounds. -/
noncomputable def prepare_optimization_problem (model : ModelParameters)
    (electricity_prices outdoor_temperatures delta_t : List ℝ)
    (current_indoor_temperature requested_indoor_temperature
      minimum_indoor_temperature maximum_indoor_temperature
      maximum_feed_temperature : ℝ) : Except String ProblemDefinition :=
  let no_of_variables := electricity_prices.length
  if outdoor_temperatures.length ≠ no_of_variables then
    Except.error "Lengths of electricity_prices and outdoor_temperatures must match!"
  else
    let minI := min minimum_indoor_temperature current_indoor_temperature
    let maxI := max maximum_indoor_temperature current_indoor_temperature
    Except.ok
      { size := outdoor_temperatures.length
        objective := fun T_feed =>
          let timed_weights := delta_t.map (fun d => d / npMax delta_t)
          let COPs : List ℝ :=
            match model.COP_feed with
            | some cop => T_feed.map cop
            | none => T_feed.map (fun _ => 1)
          let COP_weights := COPs.map (fun c => 1 / c)
          (((COP_weights.zipWith (· * ·) timed_weights).zipWith (· * ·)
                electricity_prices).zipWith (· * ·) T_feed).sum /
            electricity_prices.sum
        inequality_constraints := fun T_feed =>
          let T_indoor := simulateModel model current_indoor_temperature T_feed
            outdoor_temperatures delta_t
          T_indoor.map (fun T => T - minI) ++ T_indoor.map (fun T => maxI - T)
        equality_constraints := fun T_feed =>
          let T_indoor := simulateModel model current_indoor_temperature T_feed
            outdoor_temperatures delta_t
          [T_indoor.sum / T_indoor.length - requested_indoor_temperature,
            T_indoor.getLastD 0 - requested_indoor_temperature]
        bounds := List.replicate no_of_variables (minI, maximum_feed_temperature) }

/-- C3 is false as stated: with `electricity_prices = [1]`,
`outdoor_temperatures = [2]` but `delta_t = [1, 1]`, the three horizon
lengths disagree (1, 1, 2), yet construction succeeds — only the first two
lengths are compared. -/
theorem prepare_length_counterexample :
    ([(1 : ℝ)].length = [(2 : ℝ)].length ∧
        ¬ [(1 : ℝ)].length = [(1 : ℝ), 1].length) ∧
      (prepare_optimization_problem ⟨1, 1, none⟩ [1] [2] [(1 : ℝ), 1]
          20 20 18 22 50).isOk = true :=
  ⟨⟨rfl, by decide⟩, rfl⟩

/-- C3 amended: `prepare_optimization_problem` reports an error iff the
lengths of `electricity_prices` and `outdoor_temperatures` disagree;
`delta_t`'s length is not checked at construction time. -/
theorem prepare_errors_iff_price_outdoor_mismatch (model : ModelParameters)
    (prices outdoor dt : List ℝ) (cur req mn mx mf : ℝ) :
    (prepare_optimization_problem model prices outdoor dt cur req mn mx mf).isOk
        = true ↔ outdoor.length = prices.length := by
  by_cases h : outdoor.length = prices.length <;>
    simp [prepare_optimization_problem, h, Except.isOk, Except.toBool]

theorem list_sum_eq_range_getD (l : List ℝ) :
    l.sum = ∑ i in Finset.range l.length, l.getD i 0 := by
  induction l with
  | nil => simp
  | cons x xs ih =>
    rw [List.sum_cons, List.length_cons, Finset.sum_range_succ']
    simp [ih, add_comm]

theorem getD_map_lt (f : ℝ → ℝ) (l : List ℝ) (i : ℕ) (h : i < l.length) :
    (l.map f).getD i 0 = f (l.getD i 0) := by
  rw [List.getD_eq_getElem _ _ (by simpa using h), List.getD_eq_getElem _ _ h]
  simp

theorem zipWith_mul_getD_lt (l1 l2 : List ℝ) (i : ℕ) (h1 : i < l1.length)
    (h2 : i < l2.length) :
    (l1.zipWith (· * ·) l2).getD i 0 = l1.getD i 0 * l2.getD i 0 := by
  have hz : i < (l1.zipWith (· * ·) l2).length := by
    rw [List.length_zipWith]
    omega
  rw [List.getD_eq_getElem _ _ hz, List.getD_eq_getElem _ _ h1,
    List.getD_eq_getElem _ _ h2]
  simp

/-- The objective closure evaluated at a decision vector of matching length,
written as the claim's indexed sum. -/
theorem objective_value (model : ModelParameters) (prices outdoor dt : List ℝ)
    (cur req mn mx mf : ℝ) (T_feed : List ℝ)
    (hlen : outdoor.length = prices.length) (hdt : dt.length = prices.length)
    (hTf : T_feed.length = prices.length) :
    (prepare_optimization_problem model prices outdoor dt cur req mn mx
          mf).map (fun P => P.objective T_feed) =
      Except.ok ((∑ i in Finset.range prices.length,
          (match model.COP_feed with
            | some cop => 1 / cop (T_feed.getD i 0)
            | none => 1) *
            (dt.getD i 0 / npMax dt) * prices.getD i 0 * T_feed.getD i 0) /
        prices.sum) := by
  unfold prepare_optimization_problem
  rw [if_neg (by simp [hlen])]
  simp only [Except.map]
  congr 1
  set N := prices.length with hN
  set COPs : List ℝ :=
    (match model.COP_feed with
      | some cop => T_feed.map cop
      | none => T_feed.map (fun _ => 1)) with hCOPs
  have hCOPslen : COPs.length = N := by
    rw [hCOPs]
    cases model.COP_feed <;> simp [hTf]
  have hCWlen : (COPs.map (fun c => 1 / c)).length = N := by simp [hCOPslen]
  have hTWlen : (dt.map (fun d => d / npMax dt)).length = N := by simp [hdt]
  set chain :=
    ((((COPs.map (fun c => 1 / c)).zipWith (· * ·)
          (dt.map (fun d => d / npMax dt))).zipWith (· * ·)
        prices).zipWith (· * ·) T_feed) with hchain
  have hchainlen : chain.length = N := by
    rw [hchain]
    simp only [List.length_zipWith, hCWlen, hTWlen, hTf]
    omega
  have hterm : ∀ i < N, chain.getD i 0 =
      (match model.COP_feed with
        | some cop => 1 / cop (T_feed.getD i 0)
        | none => 1) *
        (dt.getD i 0 / npMax dt) * prices.getD i 0 * T_feed.getD i 0 := by
    intro i hi
    rw [hchain]
    rw [zipWith_mul_getD_lt _ _ i (by simp [List.length_zipWith, hCWlen, hTWlen]; omega)
        (by omega)]
    rw [zipWith_mul_getD_lt _ _ i (by simp [List.length_zipWith, hCWlen, hTWlen]; omega)
        (by omega)]
    rw [zipWith_mul_getD_lt _ _ i (by omega : i < (COPs.map (fun c => 1 / c)).length)
        (by omega : i < (dt.map (fun d => d / npMax dt)).length)]
    rw [getD_map_lt _ _ i (by omega : i < COPs.length),
      getD_map_lt _ _ i (by omega : i < dt.length)]
    congr 2
    rw [hCOPs]
    cases model.COP_feed with
    | none =>
      rw [getD_map_lt _ _ i (by omega : i < T_feed.length)]
      norm_num
    | some cop =>
      rw [getD_map_lt _ _ i (by omega : i < T_feed.length)]
  show chain.sum / prices.sum = _
  rw [list_sum_eq_range_getD chain, hchainlen]
  congr 1
  exact Finset.sum_congr rfl fun i hi => hterm i (Finset.mem_range.mp hi)

/-- C4: at a decision vector of the horizon's length, the constructed
objective equals the price-normalized weighted sum
`Σ (1/COP(T_feed_i)) * (delta_t_i / max delta_t) * price_i * T_feed_i`
over `Σ price_i` (the COP weight is `1` when no COP function is configured),
and is therefore invariant under scaling every electricity price by any
`c > 0`. -/
theorem objective_formula_and_price_scale_invariance (model : ModelParameters)
    (prices outdoor dt : List ℝ) (cur req mn mx mf : ℝ) (T_feed : List ℝ)
    (hlen : outdoor.length = prices.length) (hdt : dt.length = prices.length)
    (hTf : T_feed.length = prices.length) (hpos : 0 < prices.sum)
    (hdtpos : ∀ d ∈ dt, 0 < d) :
    (prepare_optimization_problem model prices outdoor dt cur req mn mx
          mf).map (fun P => P.objective T_feed) =
      Except.ok ((∑ i in Finset.range prices.length,
          (match model.COP_feed with
            | some cop => 1 / cop (T_feed.getD i 0)
            | none => 1) *
            (dt.getD i 0 / npMax dt) * prices.getD i 0 * T_feed.getD i 0) /
        prices.sum) ∧
      ∀ c : ℝ, 0 < c →
        (prepare_optimization_problem model (prices.map (fun p => c * p))
              outdoor dt cur req mn mx mf).map (fun P => P.objective T_feed) =
          (prepare_optimization_problem model prices outdoor dt cur req mn mx
              mf).map (fun P => P.objective T_feed) := by
  have h1 := objective_value model prices outdoor dt cur req mn mx mf T_feed
    hlen hdt hTf
  refine ⟨h1, ?_⟩
  intro c hc
  have hlen' : outdoor.length = (prices.map (fun p => c * p)).length := by
    simpa using hlen
  have hdt' : dt.length = (prices.map (fun p => c * p)).length := by
    simpa using hdt
  have hTf' : T_feed.length = (prices.map (fun p => c * p)).length := by
    simpa using hTf
  have h2 := objective_value model (prices.map (fun p => c * p)) outdoor dt
    cur req mn mx mf T_feed hlen' hdt' hTf'
  rw [h1, h2]
  congr 1
  have hsum : (prices.map (fun p => c * p)).sum = c * prices.sum := by
    simpa using List.sum_map_mul_left prices id c
  have hlenmap : (prices.map (fun p => c * p)).length = prices.length := by simp
  rw [hsum, hlenmap]
  have hterms : ∀ i ∈ Finset.range prices.length,
      (match model.COP_feed with
        | some cop => 1 / cop (T_feed.getD i 0)
        | none => 1) *
        (dt.getD i 0 / npMax dt) * (prices.map (fun p => c * p)).getD i 0 *
        T_feed.getD i 0 =
      c * ((match model.COP_feed with
        | some cop => 1 / cop (T_feed.getD i 0)
        | none => 1) *
        (dt.getD i 0 / npMax dt) * prices.getD i 0 * T_feed.getD i 0) := by
    intro i hi
    rw [getD_map_lt _ _ i (Finset.mem_range.mp hi)]
    ring
  rw [Finset.sum_congr rfl hterms, ← Finset.mul_sum]
  exact mul_div_mul_left _ _ (ne_of_gt hc)

/-- Witness for C4 at `model = ⟨1, 1, none⟩`, `prices = [1, 2]`,
`outdoor = [0, 0]`, `delta_t = [1, 1]`, `T_feed = [1, 1]`, `c = 2`. -/
theorem objective_formula_witness :
    (prepare_optimization_problem ⟨1, 1, none⟩ [1, 2] [0, 0] [(1 : ℝ), 1]
          20 20 18 22 50).map (fun P => P.objective [1, 1]) =
      Except.ok ((∑ i in Finset.range ([(1 : ℝ), 2] : List ℝ).length,
          (match (none : Option (ℝ → ℝ)) with
            | some cop => 1 / cop (([(1 : ℝ), 1] : List ℝ).getD i 0)
            | none => 1) *
            (([(1 : ℝ), 1] : List ℝ).getD i 0 / npMax [(1 : ℝ), 1]) *
            ([(1 : ℝ), 2] : List ℝ).getD i 0 *
            ([(1 : ℝ), 1] : List ℝ).getD i 0) /
        ([(1 : ℝ), 2] : List ℝ).sum) ∧
      (prepare_optimization_problem ⟨1, 1, none⟩
            ((([(1 : ℝ), 2]) : List ℝ).map (fun p => 2 * p)) [0, 0]
            [(1 : ℝ), 1] 20 20 18 22 50).map (fun P => P.objective [1, 1]) =
        (prepare_optimization_problem ⟨1, 1, none⟩ [1, 2] [0, 0] [(1 : ℝ), 1]
            20 20 18 22 50).map (fun P => P.objective [1, 1]) := by
  have h := objective_formula_and_price_scale_invariance ⟨1, 1, none⟩
    [1, 2] [0, 0] [(1 : ℝ), 1] 20 20 18 22 50 [1, 1] rfl rfl rfl
    (by norm_num [List.sum_cons])
    (by
      intro d hd
      simp only [List.mem_cons, List.not_mem_nil, or_false] at hd
      rcases hd with h | h <;> rw [h] <;> norm_num)
  exact ⟨h.1, h.2 2 (by norm_num)⟩

/-- C5: the effective indoor band is
`[min(configured minimum, current), max(configured maximum, current)]` — it
always contains the current indoor temperature; the inequality-constraint
closure compares the simulated trajectory against exactly this widened band,
and the effective minimum is also the per-variable lower decision bound. -/
theorem effective_bounds_widening (model : ModelParameters)
    (prices outdoor dt : List ℝ) (cur req mn mx mf : ℝ) (T_feed : List ℝ)
    (hlen : outdoor.length = prices.length) :
    (prepare_optimization_problem model prices outdoor dt cur req mn mx
          mf).map (fun P => P.bounds) =
      Except.ok (List.replicate prices.length (min mn cur, mf)) ∧
      (prepare_optimization_problem model prices outdoor dt cur req mn mx
            mf).map (fun P => P.inequality_constraints T_feed) =
        Except.ok
          ((simulateModel model cur T_feed outdoor dt).map
              (fun T => T - min mn cur) ++
            (simulateModel model cur T_feed outdoor dt).map
              (fun T => max mx cur - T)) ∧
      min mn cur ≤ cur ∧ cur ≤ max mx cur := by
  unfold prepare_optimization_problem
  rw [if_neg (by simp [hlen])]
  exact ⟨rfl, rfl, min_le_right mn cur, le_max_right mx cur⟩

/-- Witness for C5 at a current indoor temperature outside the configured
band (`cur = 30 > mx = 22`). -/
theorem effective_bounds_widening_witness :
    (prepare_optimization_problem ⟨1, 1, none⟩ [1] [0] [(1 : ℝ)] 30 20 18 22
          50).map (fun P => P.bounds) =
      Except.ok (List.replicate ([(1 : ℝ)] : List ℝ).length
        (min 18 30, (50 : ℝ))) ∧
      (prepare_optimization_problem ⟨1, 1, none⟩ [1] [0] [(1 : ℝ)] 30 20 18 22
            50).map (fun P => P.inequality_constraints [40]) =
        Except.ok
          ((simulateModel ⟨1, 1, none⟩ 30 [40] [0] [(1 : ℝ)]).map
              (fun T => T - min 18 30) ++
            (simulateModel ⟨1, 1, none⟩ 30 [40] [0] [(1 : ℝ)]).map
              (fun T => max 22 30 - T)) ∧
      min (18 : ℝ) 30 ≤ 30 ∧ (30 : ℝ) ≤ max 22 30 :=
  effective_bounds_widening ⟨1, 1, none⟩ [1] [0] [(1 : ℝ)] 30 20 18 22 50
    [40] rfl

end Esther
